import Mathlib

/-!
Verification of the katniss proto-to-arrow ingestion pipeline.

Shallow embedding of:
  * `katniss-pb2arrow/src/record_conversion/builder_appending.rs`
  * `katniss-pb2arrow/src/record_conversion.rs`
  * `katniss-pb2arrow/src/schema_conversion.rs`
  * `katniss-ingestor/src/arrow.rs`
  * `katniss-ingestor/src/temporal_rotator.rs`
  * `katniss-ingestor/src/pipeline/buffers.rs` and `file_sink.rs`
-/

namespace Katniss

/-! ## Protobuf reflection model (prost-reflect `Value` / `DynamicMessage`)

A dynamic message is a list of fields; each field carries its descriptor
data (name, `supports_presence`, kind) together with the presence bit
(`has_field_by_name`) and the reflected value (`get_field_by_name`, which
in prost-reflect yields the default value when the field is unset). -/

/-- Field-descriptor kind as consulted by the appending code: the code only
asks `kind().as_enum()`, so we record the enum value table (declaration
order list of (number, name)) or mark the kind as non-enum. -/
inductive FieldKind where
  | enumK (values : List (Int × String))
  | otherK
  deriving Repr, DecidableEq

/-- prost-reflect `Value`.  Float payloads are kept as opaque bit patterns -
no claim computes with float arithmetic.  A message value carries its fields
as tuples `(name, supports_presence, has_field, kind, value)`. -/
inductive PValue where
  | vBool (b : Bool)
  | vI32 (i : Int)
  | vI64 (i : Int)
  | vU32 (n : Nat)
  | vU64 (n : Nat)
  | vF32 (bits : Nat)
  | vF64 (bits : Nat)
  | vStr (s : String)
  | vBytes (bs : List Nat)
  | vEnum (n : Int)
  | vList (xs : List PValue)
  | vMsg (fields : List (String × Bool × Bool × FieldKind × PValue))

/-- One field of a dynamic message: descriptor data plus reflected state. -/
def MsgField : Type := String × Bool × Bool × FieldKind × PValue

/-- A `DynamicMessage`: its list of fields. -/
def DynMessage : Type := List MsgField

namespace MsgField

def name (f : MsgField) : String := f.1
def supportsPresence (f : MsgField) : Bool := f.2.1
def hasField (f : MsgField) : Bool := f.2.2.1
def kind (f : MsgField) : FieldKind := f.2.2.2.1
def value (f : MsgField) : PValue := f.2.2.2.2

end MsgField

/-- Model of `DynamicMessage::descriptor().get_field_by_name` /
`get_field_by_name` / `has_field_by_name` all key on the field name. -/
def DynMessage.findField (m : DynMessage) (name : String) : Option MsgField :=
  m.find? (fun f => f.name == name)

/-- prost-reflect `EnumDescriptor::get_value`: look up a value by number. -/
def FieldKind.getValue (values : List (Int × String)) (n : Int) : Option (Int × String) :=
  values.find? (fun v => v.1 == n)

/-! ### `Value::as_*` accessors (prost-reflect) -/

namespace PValue

def asF64 : PValue → Option Nat
  | .vF64 b => some b
  | _ => none

def asF32 : PValue → Option Nat
  | .vF32 b => some b
  | _ => none

def asI64 : PValue → Option Int
  | .vI64 i => some i
  | _ => none

/-- Model of `Value::as_i32`; it accepts both `I32` and `EnumNumber`. -/
def asI32 : PValue → Option Int
  | .vI32 i => some i
  | .vEnum i => some i
  | _ => none

def asU64 : PValue → Option Nat
  | .vU64 n => some n
  | _ => none

def asU32 : PValue → Option Nat
  | .vU32 n => some n
  | _ => none

def asStr : PValue → Option String
  | .vStr s => some s
  | _ => none

def asBytes : PValue → Option (List Nat)
  | .vBytes bs => some bs
  | _ => none

def asBool : PValue → Option Bool
  | .vBool b => some b
  | _ => none

def asMessage : PValue → Option DynMessage
  | .vMsg fs => some fs
  | _ => none

def asList : PValue → Option (List PValue)
  | .vList xs => some xs
  | _ => none

end PValue

/-! ## Arrow schema model (`arrow_schema::{DataType, Field}`)

Only the data types the source emits and consumes are modelled.  An arrow
`Field` carries `name`, `data_type`, `nullable`, `dict_id` (0 by default,
set by `Field::new_dict`) and `dict_is_ordered`. -/

mutual
inductive DataTypeM where
  | boolean | int32 | int64 | uint32 | uint64 | float32 | float64
  | utf8 | largeUtf8 | binary | largeBinary
  | dictionary
  | listT (item : AField)
  | largeListT (item : AField)
  | structT (fields : List AField)
inductive AField where
  | mk (name : String) (dataType : DataTypeM) (nullable : Bool) (dictId : Int) (ordered : Bool)
end

def AField.name : AField → String
  | .mk n _ _ _ _ => n

def AField.dataType : AField → DataTypeM
  | .mk _ dt _ _ _ => dt

def AField.nullable : AField → Bool
  | .mk _ _ nl _ _ => nl

def AField.dictId : AField → Int
  | .mk _ _ _ i _ => i

def AField.ordered : AField → Bool
  | .mk _ _ _ _ o => o

/-- A scalar cell appended to a primitive arrow builder. -/
inductive Scalar where
  | sBool (b : Bool)
  | sI32 (i : Int)
  | sI64 (i : Int)
  | sU32 (n : Nat)
  | sU64 (n : Nat)
  | sF32 (bits : Nat)
  | sF64 (bits : Nat)
  | sStr (s : String)
  | sBytes (bs : List Nat)
  deriving Repr, DecidableEq

/-- Errors of `KatnissArrowError` reachable from the appending code, plus
explicit constructors for the Rust panics (`unwrap`, downcast `expect`,
`panic!("parse_errorlolol")`, `unimplemented!`), which we model as errors. -/
inductive AppendErr where
  | descriptorNotFound (n : String)
  | typeCastErr
  | nonEnumField
  | noEnumValue (i : Int)
  | nonListField
  | unwrapPanic
  | castPanic
  | parseListEnumPanic
  | unsupportedPanic
  deriving Repr, DecidableEq

/-! ## Column builder tree

Mirrors the arrow builder tree the source mutates:
`StructBuilder` = children plus a validity bitmap, `ListBuilder` = inner
builder plus per-row validity (offsets are implied), primitive and
dictionary builders = their appended cells.  A builder's `len` is its
number of appended logical rows, exactly as in arrow. -/

inductive Builder where
  | prim (cells : List (Option Scalar))
  | dict (cells : List (Option String))
  | listB (inner : Builder) (validity : List Bool)
  | structB (children : List Builder) (validity : List Bool)

/-- Model of `ArrayBuilder::len`. -/
def Builder.len : Builder → Nat
  | .prim cells => cells.length
  | .dict cells => cells.length
  | .listB _ validity => validity.length
  | .structB _ validity => validity.length

/-- Model of `extend_builder` on a primitive builder (appends exactly one cell);
a shape mismatch models the `field_builder::<T>(..).expect(..)` downcast
panic. -/
def Builder.extendPrim (b : Builder) (cell : Option Scalar) : Builder × Option AppendErr :=
  match b with
  | .prim cells => (.prim (cells ++ [cell]), none)
  | b => (b, some .castPanic)

/-- Model of `StringDictionaryBuilder::append` with a known symbol. -/
def Builder.dictAppend (b : Builder) (s : String) : Builder × Option AppendErr :=
  match b with
  | .dict cells => (.dict (cells ++ [some s]), none)
  | b => (b, some .castPanic)

/-- Model of `StringDictionaryBuilder::append_null`. -/
def Builder.dictAppendNull (b : Builder) : Builder × Option AppendErr :=
  match b with
  | .dict cells => (.dict (cells ++ [none]), none)
  | b => (b, some .castPanic)

/-- Model of `ListBuilder<primitive>::extend(once(row))`: a `none` row appends a
null list entry, a `some` row appends its element cells to the inner
builder and closes one valid list row. -/
def Builder.listExtend (b : Builder) (row : Option (List (Option Scalar))) :
    Builder × Option AppendErr :=
  match b with
  | .listB (.prim cells) validity =>
    match row with
    | none => (.listB (.prim cells) (validity ++ [false]), none)
    | some xs => (.listB (.prim (cells ++ xs)) (validity ++ [true]), none)
  | b => (b, some .castPanic)

/-- Model of `ListBuilder<StringDictionaryBuilder>::extend(once(val_lst))`. -/
def Builder.listDictExtend (b : Builder) (row : Option (List (Option String))) :
    Builder × Option AppendErr :=
  match b with
  | .listB (.dict cells) validity =>
    match row with
    | none => (.listB (.dict cells) (validity ++ [false]), none)
    | some xs => (.listB (.dict (cells ++ xs)) (validity ++ [true]), none)
  | b => (b, some .castPanic)

/-! ## Appending one message (`builder_appending.rs`)

All append functions return the (possibly partially) mutated builder
together with `some err` on failure — mirroring Rust's `&mut` receivers,
where mutations made before an early `?` return persist. -/

/-- Model of `parse_val`: absent value appends null; a present value that the
getter rejects is a `TypeCastError`. -/
def parseVal {R : Type} (val : Option PValue) (getter : PValue → Option R) :
    Except AppendErr (Option R) :=
  match val with
  | none => .ok none
  | some v =>
    match getter v with
    | some r => .ok (some r)
    | none => .error .typeCastErr

/-- Model of `parse_list`: an absent list is a null row; any element the getter
rejects is a `TypeCastError`. -/
def parseList {R : Type} (values : Option (List PValue)) (getter : PValue → Option R) :
    Except AppendErr (Option (List (Option R))) :=
  match values with
  | none => .ok none
  | some vs => do
    let rs ← vs.mapM (fun v =>
      match getter v with
      | some r => Except.ok (some r)
      | none => Except.error AppendErr.typeCastErr)
    .ok (some rs)

/-- Shared head of `append_non_list_value` and `append_list_value`
(lines 41-62 and 158-180): resolve the field descriptor by name
(`DescriptorNotFound` when the message's descriptor lacks it), read the
reflected value, and null it out when the field supports presence but is
unset.  With no message everything is absent. -/
def fieldHead (fname : String) (msg : Option DynMessage) :
    Except AppendErr (Option MsgField × Option PValue) :=
  match msg with
  | none => .ok (none, none)
  | some m =>
    match m.findField fname with
    | none => .error (.descriptorNotFound fname)
    | some fd =>
      let val := if fd.supportsPresence && !fd.hasField then none else some fd.value
      .ok (some fd, val)

/-- Model of `extend_builder(field_builder(..), parse_val(..)?)` for a scalar column. -/
def appendPrimCell (child : Builder) (r : Except AppendErr (Option Scalar)) :
    Builder × Option AppendErr :=
  match r with
  | .error e => (child, some e)
  | .ok cell => child.extendPrim cell

/-- Model of `extend_builder(field_builder(..), parse_list(..)?)` for a list column. -/
def appendListRow (child : Builder) (r : Except AppendErr (Option (List (Option Scalar)))) :
    Builder × Option AppendErr :=
  match r with
  | .error e => (child, some e)
  | .ok row => child.listExtend row

/-- The `val_lst` computation of the repeated-enum branch (lines 240-248):
each element is mapped through `Value::as_i32` (a non-integer element hits
`panic!("parse_errorlolol")`) and then through the enum descriptor —
an unknown number yields a NULL element, not an error. -/
def dictListCells (evs : List (Int × String)) (values : Option (List PValue)) :
    Except AppendErr (Option (List (Option String))) :=
  match values with
  | none => .ok none
  | some vs => do
    let row ← vs.mapM (fun v =>
      match v.asI32 with
      | some i => Except.ok ((FieldKind.getValue evs i).map (fun p => p.2))
      | none => Except.error AppendErr.parseListEnumPanic)
    .ok (some row)

/-- The `DataType::Dictionary` arm of `append_non_list_value`
(lines 114-134): read the value as an integer (`None` appends null);
`fd_option.unwrap()` (a panic when no descriptor), `kind().as_enum()`
(`NonEnumField`), `get_value` (`NoEnumValue` on unknown numbers), then
append the symbol's name. -/
def appendDictBranch (fdOpt : Option MsgField) (val : Option PValue) (child : Builder) :
    Builder × Option AppendErr :=
  match val.bind PValue.asI32 with
  | some intval =>
    match fdOpt with
    | none => (child, some .unwrapPanic)
    | some fd =>
      match fd.kind with
      | .otherK => (child, some .nonEnumField)
      | .enumK evs =>
        match FieldKind.getValue evs intval with
        | none => (child, some (.noEnumValue intval))
        | some ev => child.dictAppend ev.2
  | none => child.dictAppendNull

/-- The `DataType::Dictionary` inner arm of `append_list_value`
(lines 233-252): unwrap the descriptor, require an enum kind, build
`val_lst` and extend the list-of-dictionary builder with it. -/
def appendListDictBranch (fdOpt : Option MsgField) (values : Option (List PValue))
    (child : Builder) : Builder × Option AppendErr :=
  match fdOpt with
  | none => (child, some .unwrapPanic)
  | some fd =>
    match fd.kind with
    | .otherK => (child, some .nonEnumField)
    | .enumK evs =>
      match dictListCells evs values with
      | .error e => (child, some e)
      | .ok row => child.listDictExtend row

mutual

/-- Model of `append_all_fields`: append every field, then mark the root row valid
iff a message was present.  Fails fast mid-loop, leaving the prefix of
columns already advanced. -/
def appendAllFields (fields : List AField) (b : Builder) (msg : Option DynMessage) :
    Builder × Option AppendErr :=
  match b with
  | .structB children validity =>
    match appendFieldLoop fields msg children with
    | (cs, some e) => (.structB cs validity, some e)
    | (cs, none) => (.structB cs (validity ++ [msg.isSome]), none)
  | b => (b, some .castPanic)
termination_by (sizeOf fields, 2)

/-- The indexed `for` loop of `append_all_fields`, walking fields and
their aligned child builders together. -/
def appendFieldLoop (fields : List AField) (msg : Option DynMessage) (children : List Builder) :
    List Builder × Option AppendErr :=
  match fields, children with
  | [], cs => (cs, none)
  | _ :: _, [] => ([], some .castPanic)
  | f :: fs, c :: cs =>
    match appendField f msg c with
    | (c', some e) => (c' :: cs, some e)
    | (c', none) =>
      match appendFieldLoop fs msg cs with
      | (cs', e) => (c' :: cs', e)
termination_by (sizeOf fields, 1)

/-- Model of `append_field`: dispatch on the column's data type. -/
def appendField (f : AField) (msg : Option DynMessage) (child : Builder) :
    Builder × Option AppendErr :=
  match f with
  | .mk fname dt _ _ _ =>
    match dt with
    | .listT item => appendListValue fname item msg child
    | .largeListT item => appendListValue fname item msg child
    | dt => appendNonListValue fname dt msg child
termination_by (sizeOf f, 2)

/-- Model of `append_non_list_value`. -/
def appendNonListValue (fname : String) (dt : DataTypeM) (msg : Option DynMessage)
    (child : Builder) : Builder × Option AppendErr :=
  match fieldHead fname msg with
  | .error e => (child, some e)
  | .ok (fdOpt, val) =>
    match dt with
    | .float64 => appendPrimCell child (parseVal val (fun v => (v.asF64).map Scalar.sF64))
    | .float32 => appendPrimCell child (parseVal val (fun v => (v.asF32).map Scalar.sF32))
    | .int64 => appendPrimCell child (parseVal val (fun v => (v.asI64).map Scalar.sI64))
    | .int32 => appendPrimCell child (parseVal val (fun v => (v.asI32).map Scalar.sI32))
    | .uint64 => appendPrimCell child (parseVal val (fun v => (v.asU64).map Scalar.sU64))
    | .uint32 => appendPrimCell child (parseVal val (fun v => (v.asU32).map Scalar.sU32))
    | .utf8 => appendPrimCell child (parseVal val (fun v => (v.asStr).map Scalar.sStr))
    | .largeUtf8 => appendPrimCell child (parseVal val (fun v => (v.asStr).map Scalar.sStr))
    | .binary => appendPrimCell child (parseVal val (fun v => (v.asBytes).map Scalar.sBytes))
    | .largeBinary => appendPrimCell child (parseVal val (fun v => (v.asBytes).map Scalar.sBytes))
    | .boolean =>
      appendPrimCell child
        (match val with
         | some (.vMsg _) => .ok (some (.sBool true))
         | _ => parseVal val (fun v => (v.asBool).map Scalar.sBool))
    | .dictionary => appendDictBranch fdOpt val child
    | .structT nestedFields =>
      (match val with
       | some v => appendAllFields nestedFields child (v.asMessage)
       | none => appendAllFields nestedFields child none)
    | .listT _ => (child, some .unsupportedPanic)
    | .largeListT _ => (child, some .unsupportedPanic)
termination_by (sizeOf dt, 2)

/-- Model of `append_list_value`, dispatching on the list item's data type. -/
def appendListValue (fname : String) (item : AField) (msg : Option DynMessage)
    (child : Builder) : Builder × Option AppendErr :=
  match fieldHead fname msg with
  | .error e => (child, some e)
  | .ok (fdOpt, v) =>
    let values : Option (List PValue) :=
      match v with
      | some v => v.asList
      | none => none
    match item with
    | .mk _ idt _ _ _ =>
      match idt with
      | .float64 => appendListRow child (parseList values (fun v => (v.asF64).map Scalar.sF64))
      | .float32 => appendListRow child (parseList values (fun v => (v.asF32).map Scalar.sF32))
      | .int64 => appendListRow child (parseList values (fun v => (v.asI64).map Scalar.sI64))
      | .int32 => appendListRow child (parseList values (fun v => (v.asI32).map Scalar.sI32))
      | .uint64 => appendListRow child (parseList values (fun v => (v.asU64).map Scalar.sU64))
      | .uint32 => appendListRow child (parseList values (fun v => (v.asU32).map Scalar.sU32))
      | .utf8 => appendListRow child (parseList values (fun v => (v.asStr).map Scalar.sStr))
      | .largeUtf8 => appendListRow child (parseList values (fun v => (v.asStr).map Scalar.sStr))
      | .binary => appendListRow child (parseList values (fun v => (v.asBytes).map Scalar.sBytes))
      | .largeBinary =>
        appendListRow child (parseList values (fun v => (v.asBytes).map Scalar.sBytes))
      | .boolean => appendListRow child (parseList values (fun v => (v.asBool).map Scalar.sBool))
      | .dictionary => appendListDictBranch fdOpt values child
      | .structT nestedFields => appendListStructBranch nestedFields values child
      | .listT _ => (child, some .unsupportedPanic)
      | .largeListT _ => (child, some .unsupportedPanic)
termination_by (sizeOf item, 2)

/-- The `DataType::Struct` inner arm of `append_list_value`
(lines 253-271): append each element message into the inner struct
builder, then close the list row (`b.append(true)` / `b.append(false)`
for an absent list after writing nulls to the children). -/
def appendListStructBranch (nestedFields : List AField) (values : Option (List PValue))
    (child : Builder) : Builder × Option AppendErr :=
  match child with
  | .listB inner validity =>
    (match values with
     | some lst =>
       (match appendStructRows nestedFields lst inner with
        | (inner', some e) => (.listB inner' validity, some e)
        | (inner', none) => (.listB inner' (validity ++ [true]), none))
     | none =>
       (match appendAllFields nestedFields inner none with
        | (inner', some e) => (.listB inner' validity, some e)
        | (inner', none) => (.listB inner' (validity ++ [false]), none)))
  | c => (c, some .castPanic)
termination_by
  (sizeOf nestedFields, 4 + (match values with | some l => l.length | none => 0))

/-- The per-element loop of the repeated-struct branch (lines 256-261). -/
def appendStructRows (fields : List AField) (xs : List PValue) (inner : Builder) :
    Builder × Option AppendErr :=
  match xs with
  | [] => (inner, none)
  | v :: vs =>
    match appendAllFields fields inner (v.asMessage) with
    | (inner', some e) => (inner', some e)
    | (inner', none) => appendStructRows fields vs inner'
termination_by (sizeOf fields, 3 + xs.length)

end

/-! ## Record batch converter (`record_conversion.rs`) and batch ingestor
(`katniss-ingestor/src/arrow.rs`) -/

mutual
/-- Model of `StructBuilder::finish`: re-initializes every builder empty (shapes are
kept, appended cells and validity are drained into the produced array). -/
def Builder.reset : Builder → Builder
  | .prim _ => .prim []
  | .dict _ => .dict []
  | .listB inner _ => .listB inner.reset []
  | .structB cs _ => .structB (Builder.resetList cs) []
def Builder.resetList : List Builder → List Builder
  | [] => []
  | b :: bs => b.reset :: Builder.resetList bs
end

/-- An immutable record batch; only its row count is observable in the
claims under verification. -/
structure RecordBatch where
  numRows : Nat
  deriving Repr, DecidableEq

mutual
/-- The `BuilderFactory` shapes (`builder_creation.rs`): one builder per
field, lists wrap their item's builder, structs nest.  (Capacity
pre-allocation and dictionary seeding do not affect the observable state
modelled here.) -/
def makeBuilder : AField → Builder
  | .mk _ dt _ _ _ => makeBuilderOfType dt
def makeBuilderOfType : DataTypeM → Builder
  | .listT item => .listB (makeBuilder item) []
  | .largeListT item => .listB (makeBuilder item) []
  | .dictionary => .dict []
  | .structT fields => .structB (makeBuilderList fields) []
  | _ => .prim []
def makeBuilderList : List AField → List Builder
  | [] => []
  | f :: fs => makeBuilder f :: makeBuilderList fs
end

/-- Model of `RecordBatchConverter`: schema, batch size and the root builder. -/
structure RecordBatchConverter where
  schema : List AField
  batchSize : Nat
  builder : Builder

/-- Model of `RecordBatchConverter::try_new` (builder construction never fails for
the shapes modelled here). -/
def RecordBatchConverter.tryNew (schema : List AField) (batchSize : Nat) :
    RecordBatchConverter :=
  { schema := schema, batchSize := batchSize, builder := .structB (makeBuilderList schema) [] }

/-- Model of `RecordBatchConverter::append_message`. -/
def RecordBatchConverter.appendMessage (c : RecordBatchConverter) (m : DynMessage) :
    RecordBatchConverter × Option AppendErr :=
  match appendAllFields c.schema c.builder (some m) with
  | (b, e) => ({ c with builder := b }, e)

/-- Model of `RecordBatchConverter::len` — the root builder's row count. -/
def RecordBatchConverter.len (c : RecordBatchConverter) : Nat := c.builder.len

/-- Model of `RecordBatchConverter::records`: finish the builder into a batch whose
row count is the current `len`, re-initializing empty builders.  (The Rust
signature returns `Result`, but its body is `Ok(RecordBatch::from(&struct_array))`,
which cannot fail, so the model is total.) -/
def RecordBatchConverter.records (c : RecordBatchConverter) :
    RecordBatch × RecordBatchConverter :=
  ({ numRows := c.builder.len }, { c with builder := c.builder.reset })

/-- Model of `ProtobufBatchIngestor` (`katniss-ingestor/src/arrow.rs`). -/
structure ProtobufBatchIngestor where
  batchSize : Nat
  converter : RecordBatchConverter

def ProtobufBatchIngestor.tryNew (schema : List AField) (recordsPerBatch : Nat) :
    ProtobufBatchIngestor :=
  { batchSize := recordsPerBatch
    converter := RecordBatchConverter.tryNew schema recordsPerBatch }

/-- Model of `ProtobufBatchIngestor::ingest_message`: append, then flush a batch if
`len >= batch_size`.  The state after a failed append is returned
alongside the error (Rust mutates in place). -/
def ProtobufBatchIngestor.ingestMessage (ing : ProtobufBatchIngestor) (msg : DynMessage) :
    ProtobufBatchIngestor × Except AppendErr (Option RecordBatch) :=
  match ing.converter.appendMessage msg with
  | (c, some e) => ({ ing with converter := c }, .error e)
  | (c, none) =>
    if c.len ≥ ing.batchSize then
      match c.records with
      | (batch, c') => ({ ing with converter := c' }, .ok (some batch))
    else ({ ing with converter := c }, .ok none)

/-- Model of `ProtobufBatchIngestor::finish`. -/
def ProtobufBatchIngestor.finish (ing : ProtobufBatchIngestor) :
    ProtobufBatchIngestor × RecordBatch :=
  match ing.converter.records with
  | (batch, c') => ({ ing with converter := c' }, batch)

def ProtobufBatchIngestor.len (ing : ProtobufBatchIngestor) : Nat := ing.converter.len

/-! ## Temporal rotation (`katniss-ingestor/src/temporal_rotator.rs`)

`chrono::DateTime<Utc>` is modelled as an integer count of nanoseconds
since the Unix epoch (`Utc.timestamp_nanos`); `chrono::Duration::seconds`
scales accordingly. -/

def nsPerSec : Int := 1000000000

def durationSeconds (s : Int) : Int := s * nsPerSec

structure TemporalBuffer where
  beginAt : Int
  endAt : Int
  batches : List RecordBatch
  deriving Repr, DecidableEq

/-- Model of `TemporalBuffer::new_with_duration`. -/
def TemporalBuffer.newWithDuration (now : Int) (durationSecs : Int) : TemporalBuffer :=
  { beginAt := now, endAt := now + durationSeconds durationSecs, batches := [] }

/-- Model of `TemporalBuffer::new` — hardcoded 60-second duration. -/
def TemporalBuffer.new (now : Int) : TemporalBuffer :=
  TemporalBuffer.newWithDuration now 60

structure TemporalRotator where
  converter : ProtobufBatchIngestor
  current : TemporalBuffer

/-- Model of `TemporalRotator::try_new_with_duration`. -/
def TemporalRotator.tryNewWithDuration (schema : List AField) (recordsPerBatch : Nat)
    (now : Int) (durationSecs : Int) : TemporalRotator :=
  { converter := ProtobufBatchIngestor.tryNew schema recordsPerBatch
    current := TemporalBuffer.newWithDuration now durationSecs }

/-- Model of `TemporalRotator::ingest_potentially_blocking`.  Returns the rotator
state after the call (mutations before an early error return persist,
exactly as through Rust's `&mut self`) and the call's result: the sealed
previous buffer, if any, or the propagated transcoder error.
Note the fresh buffer is built with `TemporalBuffer::new(now)` — the
hardcoded 60-second duration — whatever duration the rotator was
constructed with. -/
def TemporalRotator.ingestPotentiallyBlocking (r : TemporalRotator) (msg : DynMessage)
    (now : Int) : TemporalRotator × Except AppendErr (Option TemporalBuffer) :=
  let rotated : TemporalRotator × Option TemporalBuffer :=
    if now > r.current.endAt then
      match r.converter.finish with
      | (conv, batch) =>
        ({ converter := conv, current := TemporalBuffer.new now },
         some { r.current with batches := r.current.batches ++ [batch] })
    else (r, none)
  match rotated with
  | (r, finishedBatch) =>
    match r.converter.ingestMessage msg with
    | (conv, .error e) => ({ r with converter := conv }, .error e)
    | (conv, .ok (some batch)) =>
      ({ converter := conv
         current := { r.current with batches := r.current.batches ++ [batch] } },
       .ok finishedBatch)
    | (conv, .ok none) => ({ r with converter := conv }, .ok finishedBatch)

/-! ## Schema conversion (`schema_conversion.rs`) -/

/-- Protobuf field kinds (`prost_reflect::Kind`).  A message kind carries
its fields as tuples `(name, is_list, kind)`; an enum kind carries its
declaration-ordered value table. -/
inductive PbKind where
  | double | float | pInt32 | pInt64 | pUint32 | pUint64 | sint32 | sint64
  | fixed32 | fixed64 | sfixed32 | pBool | sfixed64 | pString | pBytes
  | message (fields : List (String × Bool × PbKind))
  | pEnum (values : List (Int × String))

/-- Model of `DictValuesContainer`: the `dict_id -> values` registry, as an
association list (most recent insertion first). -/
def DictValuesContainer : Type := List (Int × List String)

/-- The registry's key set. -/
def DictValuesContainer.keys (c : DictValuesContainer) : List Int := c.map Prod.fst

/-- Model of `DictValuesContainer::add_dictionary`: the fresh id is
`keys().max().unwrap_or(0) + 1`; insertion replaces any entry under the
same key (`HashMap::insert`). -/
def DictValuesContainer.addDictionary (c : DictValuesContainer) (dictValues : List String) :
    Int × DictValuesContainer :=
  let newId := ((c.map Prod.fst).max?).getD 0 + 1
  (newId, (newId, dictValues) :: c.filter (fun kv => kv.1 != newId))

/-- Model of `enum_values.windows(2).all(|w| w[0] <= w[1])`. -/
def lexNonDecr : List String → Bool
  | [] => true
  | [_] => true
  | a :: b :: rest => (decide (a ≤ b)) && lexNonDecr (b :: rest)

/-- Model of `f.kind().as_enum().unwrap().values()...` — the declared value names in
declaration order (only ever invoked on enum kinds). -/
def PbKind.enumValueNames : PbKind → List String
  | .pEnum vs => vs.map (fun v => v.2)
  | _ => []

mutual

/-- Model of `FieldConverter::to_arrow_mut`, threading the dictionary registry.
Every produced field is nullable; only the non-list dictionary branch
registers a dictionary and sets `dict_id` / `dict_is_ordered`
(`Field::new` leaves `dict_id = 0`, `ordered = false`). -/
def toArrowMut (name : String) (isList : Bool) (k : PbKind) (st : DictValuesContainer) :
    AField × DictValuesContainer :=
  match kindToType k st with
  | (dataType, st) =>
    if isList then
      (.mk name (.listT (.mk "item" dataType true 0 false)) true 0 false, st)
    else
      match dataType with
      | .dictionary =>
        let enumValues := k.enumValueNames
        let isOrdered := lexNonDecr enumValues
        match st.addDictionary enumValues with
        | (dictId, st) => (.mk name .dictionary true dictId isOrdered, st)
      | dt => (.mk name dt true 0 false, st)
termination_by (sizeOf k, 1)

/-- Model of `FieldConverter::kind_to_type`. -/
def kindToType (k : PbKind) (st : DictValuesContainer) : DataTypeM × DictValuesContainer :=
  match k with
  | .double => (.float64, st)
  | .float => (.float32, st)
  | .pInt32 => (.int32, st)
  | .pInt64 => (.int64, st)
  | .pUint32 => (.uint32, st)
  | .pUint64 => (.uint64, st)
  | .sint32 => (.int32, st)
  | .sint64 => (.int64, st)
  | .fixed32 => (.uint32, st)
  | .fixed64 => (.uint64, st)
  | .sfixed32 => (.int32, st)
  | .pBool => (.boolean, st)
  | .sfixed64 => (.int64, st)
  | .pString => (.utf8, st)
  | .pBytes => (.binary, st)
  | .message fields =>
    if fields.length > 0 then
      match toArrowFields fields st with
      | (fs, st) => (.structT fs, st)
    else (.boolean, st)
  | .pEnum _ => (.dictionary, st)
termination_by (sizeOf k, 0)

/-- Model of `msg.fields().map(|f| self.to_arrow_mut(&f))` over descriptor fields. -/
def toArrowFields (fields : List (String × Bool × PbKind)) (st : DictValuesContainer) :
    List AField × DictValuesContainer :=
  match fields with
  | [] => ([], st)
  | (n, l, k) :: rest =>
    match toArrowMut n l k st with
    | (f, st) =>
      match toArrowFields rest st with
      | (fs, st) => (f :: fs, st)
termination_by (sizeOf fields, 0)

end

mutual
/-- The nullability invariant over a produced arrow field: the field
itself, list items, and nested struct fields are all marked nullable. -/
def AField.allNullable : AField → Bool
  | .mk _ dt n _ _ => n && DataTypeM.allNullableT dt
def DataTypeM.allNullableT : DataTypeM → Bool
  | .listT item => item.allNullable
  | .largeListT item => item.allNullable
  | .structT fields => allNullableList fields
  | _ => true
def allNullableList : List AField → Bool
  | [] => true
  | f :: fs => f.allNullable && allNullableList fs
end

/-! ## Time formatting and sink paths (`temporal_rotator.rs::timestamp_string`,
`pipeline/buffers.rs`, `pipeline/file_sink.rs`)

`DateTime<Utc>.format("%Y-%m-%d-%H%M%S_utc")` is expanded into the
proleptic-Gregorian civil date of the UTC timestamp with zero-padded
fields. -/

/-- Days-since-epoch to civil (year, month, day), standard civil-from-days
conversion used by calendar libraries (floor divisions via `ediv`). -/
def civilFromDays (days : Int) : Int × Int × Int :=
  let z := days + 719468
  let era := z.ediv 146097
  let doe := z.emod 146097
  let yoe := (doe - doe.ediv 1460 + doe.ediv 36524 - doe.ediv 146096).ediv 365
  let y := yoe + era * 400
  let doy := doe - (365 * yoe + yoe.ediv 4 - yoe.ediv 100)
  let mp := (5 * doy + 2).ediv 153
  let d := doy - (153 * mp + 2).ediv 5 + 1
  let m := if mp < 10 then mp + 3 else mp - 9
  (if m ≤ 2 then y + 1 else y, m, d)

def pad2 (n : Nat) : String := if n < 10 then "0" ++ toString n else toString n

def pad4 (n : Nat) : String :=
  if n < 10 then "000" ++ toString n
  else if n < 100 then "00" ++ toString n
  else if n < 1000 then "0" ++ toString n
  else toString n

/-- Model of `timestamp_string` / `TemporalBytes::begin_timestamp`:
`time.format("%Y-%m-%d-%H%M%S_utc")` on a nanosecond UTC timestamp. -/
def timestampString (t : Int) : String :=
  let secs := t.ediv nsPerSec
  let days := secs.ediv 86400
  let sod := (secs.emod 86400).toNat
  match civilFromDays days with
  | (y, m, d) =>
    pad4 y.toNat ++ "-" ++ pad2 m.toNat ++ "-" ++ pad2 d.toNat ++ "-" ++
      pad2 (sod / 3600) ++ pad2 (sod % 3600 / 60) ++ pad2 (sod % 60) ++ "_utc"

/-- Model of `TemporalBytes` (`pipeline/buffers.rs`). -/
structure TemporalBytes where
  beginAt : Int
  endAt : Int
  bytes : List Nat

/-- Model of `TemporalBytes::begin_timestamp`. -/
def TemporalBytes.beginTimestamp (b : TemporalBytes) : String := timestampString b.beginAt

/-- Model of `TemporalBytes::path`: `format!("{}.parquet", self.begin_timestamp())`. -/
def TemporalBytes.path (b : TemporalBytes) : String := b.beginTimestamp ++ ".parquet"

/-- Model of `FileSink::filename_for`:
`directory.join(begin_timestamp).with_extension("parquet")`. -/
def fileSinkFilenameFor (directory : String) (data : TemporalBytes) : String :=
  directory ++ "/" ++ data.beginTimestamp ++ ".parquet"


/-! ## Helper lemmas: every successful field append advances exactly one row -/

theorem extendPrim_ok_len {b b' : Builder} {cell : Option Scalar}
    (h : b.extendPrim cell = (b', none)) : b'.len = b.len + 1 := by
  cases b <;> simp [Builder.extendPrim, Prod.ext_iff] at h
  subst h
  simp [Builder.len]

theorem appendPrimCell_ok_len {child b' : Builder} {r : Except AppendErr (Option Scalar)}
    (h : appendPrimCell child r = (b', none)) : b'.len = child.len + 1 := by
  cases r with
  | error e => simp [appendPrimCell, Prod.ext_iff] at h
  | ok cell => exact extendPrim_ok_len h

theorem dictAppend_ok_len {b b' : Builder} {s : String}
    (h : b.dictAppend s = (b', none)) : b'.len = b.len + 1 := by
  cases b <;> simp [Builder.dictAppend, Prod.ext_iff] at h
  subst h
  simp [Builder.len]

theorem dictAppendNull_ok_len {b b' : Builder}
    (h : b.dictAppendNull = (b', none)) : b'.len = b.len + 1 := by
  cases b <;> simp [Builder.dictAppendNull, Prod.ext_iff] at h
  subst h
  simp [Builder.len]

theorem listExtend_ok_len {b b' : Builder} {row : Option (List (Option Scalar))}
    (h : b.listExtend row = (b', none)) : b'.len = b.len + 1 := by
  cases b with
  | listB inner validity =>
    cases inner <;> cases row <;> simp [Builder.listExtend, Prod.ext_iff] at h <;>
      (subst h; simp [Builder.len])
  | _ => simp [Builder.listExtend, Prod.ext_iff] at h

theorem listDictExtend_ok_len {b b' : Builder} {row : Option (List (Option String))}
    (h : b.listDictExtend row = (b', none)) : b'.len = b.len + 1 := by
  cases b with
  | listB inner validity =>
    cases inner <;> cases row <;> simp [Builder.listDictExtend, Prod.ext_iff] at h <;>
      (subst h; simp [Builder.len])
  | _ => simp [Builder.listDictExtend, Prod.ext_iff] at h

theorem appendListRow_ok_len {child b' : Builder}
    {r : Except AppendErr (Option (List (Option Scalar)))}
    (h : appendListRow child r = (b', none)) : b'.len = child.len + 1 := by
  cases r with
  | error e => simp [appendListRow, Prod.ext_iff] at h
  | ok row => exact listExtend_ok_len h

theorem appendDictBranch_ok_len {fdOpt : Option MsgField} {val : Option PValue}
    {child b' : Builder} (h : appendDictBranch fdOpt val child = (b', none)) :
    b'.len = child.len + 1 := by
  rw [appendDictBranch.eq_def] at h
  split at h
  · split at h
    · have := congrArg Prod.snd h; simp at this
    · split at h
      · have := congrArg Prod.snd h; simp at this
      · split at h
        · have := congrArg Prod.snd h; simp at this
        · exact dictAppend_ok_len h
  · exact dictAppendNull_ok_len h

theorem appendListDictBranch_ok_len {fdOpt : Option MsgField} {values : Option (List PValue)}
    {child b' : Builder} (h : appendListDictBranch fdOpt values child = (b', none)) :
    b'.len = child.len + 1 := by
  rw [appendListDictBranch.eq_def] at h
  split at h
  · have := congrArg Prod.snd h; simp at this
  · split at h
    · have := congrArg Prod.snd h; simp at this
    · split at h
      · have := congrArg Prod.snd h; simp at this
      · exact listDictExtend_ok_len h

theorem appendAllFields_ok_len {fields : List AField} {b b' : Builder} {msg : Option DynMessage}
    (h : appendAllFields fields b msg = (b', none)) : b'.len = b.len + 1 := by
  rw [appendAllFields.eq_def] at h
  split at h
  · split at h
    · simp at h
    · rename_i children validity cs hloop
      simp only [Prod.mk.injEq] at h
      obtain ⟨rfl, -⟩ := h
      simp [Builder.len]
  · simp at h

theorem appendListStructBranch_ok_len {nestedFields : List AField}
    {values : Option (List PValue)} {child b' : Builder}
    (h : appendListStructBranch nestedFields values child = (b', none)) :
    b'.len = child.len + 1 := by
  rw [appendListStructBranch.eq_def] at h
  split at h
  · split at h <;> split at h <;>
      first
        | (simp only [Prod.mk.injEq] at h
           obtain ⟨rfl, -⟩ := h
           simp [Builder.len]
           done)
        | (have hcontra := congrArg Prod.snd h; simp at hcontra)
  · have := congrArg Prod.snd h; simp at this

theorem appendNonListValue_ok_len {fname : String} {dt : DataTypeM} {msg : Option DynMessage}
    {child b' : Builder} (h : appendNonListValue fname dt msg child = (b', none)) :
    b'.len = child.len + 1 := by
  rw [appendNonListValue.eq_def] at h
  split at h
  · have := congrArg Prod.snd h; simp at this
  · split at h <;>
      first
        | exact appendPrimCell_ok_len h
        | exact appendDictBranch_ok_len h
        | (split at h <;> exact appendAllFields_ok_len h)
        | (have hcontra := congrArg Prod.snd h; simp at hcontra)

theorem appendListValue_ok_len {fname : String} {item : AField} {msg : Option DynMessage}
    {child b' : Builder} (h : appendListValue fname item msg child = (b', none)) :
    b'.len = child.len + 1 := by
  rw [appendListValue.eq_def] at h
  split at h
  · have := congrArg Prod.snd h; simp at this
  · split at h <;> try simp only [] at h
    all_goals
      split at h
      split at h <;>
        first
          | exact appendListRow_ok_len h
          | exact appendListDictBranch_ok_len h
          | exact appendListStructBranch_ok_len h
          | (have hcontra := congrArg Prod.snd h; simp at hcontra)

theorem appendField_ok_len {f : AField} {msg : Option DynMessage}
    {child b' : Builder} (h : appendField f msg child = (b', none)) :
    b'.len = child.len + 1 := by
  rw [appendField.eq_def] at h
  split at h
  split at h <;>
    first
      | exact appendListValue_ok_len h
      | exact appendNonListValue_ok_len h


theorem appendFieldLoop_ok_forall {fields : List AField} {msg : Option DynMessage} :
    ∀ {children cs' : List Builder},
      fields.length = children.length →
      appendFieldLoop fields msg children = (cs', none) →
      List.Forall₂ (fun c c' => c'.len = c.len + 1) children cs' := by
  induction fields with
  | nil =>
    intro children cs' hlen h
    rw [appendFieldLoop.eq_def] at h
    simp only [Prod.mk.injEq] at h
    obtain ⟨rfl, -⟩ := h
    have : children = [] := List.length_eq_zero.mp hlen.symm
    subst this
    exact List.Forall₂.nil
  | cons f fs ih =>
    intro children cs' hlen h
    cases children with
    | nil => simp at hlen
    | cons c cs =>
      rw [appendFieldLoop.eq_def] at h
      simp only at h
      split at h
      · have := congrArg Prod.snd h; simp at this
      · rename_i c' hfield
        simp only [Prod.mk.injEq] at h
        obtain ⟨rfl, he⟩ := h
        refine List.Forall₂.cons (appendField_ok_len hfield) (ih (by simpa using hlen) ?_)
        rw [← he]

theorem appendAllFields_ok_children {fields : List AField} {children : List Builder}
    {validity : List Bool} {msg : Option DynMessage} {b' : Builder}
    (hlen : fields.length = children.length)
    (h : appendAllFields fields (.structB children validity) msg = (b', none)) :
    ∃ cs', b' = .structB cs' (validity ++ [msg.isSome]) ∧
      List.Forall₂ (fun c c' => c'.len = c.len + 1) children cs' := by
  rw [appendAllFields.eq_def] at h
  simp only at h
  split at h
  · have := congrArg Prod.snd h; simp at this
  · rename_i cs hloop
    simp only [Prod.mk.injEq] at h
    obtain ⟨rfl, -⟩ := h
    exact ⟨cs, rfl, appendFieldLoop_ok_forall hlen hloop⟩

/-- Root row count is left unchanged by a failing `append_all_fields`
(the root `builder.append` only runs after every field succeeded). -/
theorem appendAllFields_err_len {fields : List AField} {b b' : Builder} {msg : Option DynMessage}
    {e : AppendErr} (h : appendAllFields fields b msg = (b', some e)) : b'.len = b.len := by
  rw [appendAllFields.eq_def] at h
  split at h
  · split at h
    · rename_i children validity cs e' hloop
      simp only [Prod.mk.injEq] at h
      obtain ⟨rfl, -⟩ := h
      simp [Builder.len]
    · simp at h
  · rename_i hb
    simp only [Prod.mk.injEq] at h
    obtain ⟨rfl, -⟩ := h
    rfl

/-! ## Observable projections and shared test fixtures -/

/-- The `len`s of the root's column builders, in schema order. -/
def Builder.childLens : Builder → List Nat
  | .structB children _ => children.map Builder.len
  | _ => []

/-- Total rows buffered inside the rotator's current window: rows still
in the transcoder plus rows in the window's completed batches. -/
def TemporalRotator.bufferedRows (r : TemporalRotator) : Nat :=
  r.converter.len + (r.current.batches.map RecordBatch.numRows).sum

/-- One-column `Int32` schema used by the concrete scenarios. -/
def schemaOneI32 : List AField := [AField.mk "a" .int32 true 0 false]

/-- A default message for `schemaOneI32` (proto3 scalar: no presence,
reflected value is the zero default). -/
def msgDefaultI32 : DynMessage := [("a", false, false, FieldKind.otherK, PValue.vI32 0)]


/-- C2.  With `records_per_batch = 2` and a 30-second window, ingesting six
default messages at offsets +1s, +2s, +5s, +10s, +20s, +31s: the first five
ingests return no sealed window and leave 2 completed batches plus 1
unflushed transcoder row; the sixth returns the sealed window whose batches
have row counts [2, 2, 1], leaving 0 batches and 1 buffered row. -/
theorem c2_rotation_scenario :
    (let r0 := TemporalRotator.tryNewWithDuration schemaOneI32 2 0 30
     let s1 := r0.ingestPotentiallyBlocking msgDefaultI32 (durationSeconds 1)
     let s2 := s1.1.ingestPotentiallyBlocking msgDefaultI32 (durationSeconds 2)
     let s3 := s2.1.ingestPotentiallyBlocking msgDefaultI32 (durationSeconds 5)
     let s4 := s3.1.ingestPotentiallyBlocking msgDefaultI32 (durationSeconds 10)
     let s5 := s4.1.ingestPotentiallyBlocking msgDefaultI32 (durationSeconds 20)
     let s6 := s5.1.ingestPotentiallyBlocking msgDefaultI32 (durationSeconds 31)
     s1.2 = .ok none ∧ s2.2 = .ok none ∧ s3.2 = .ok none ∧ s4.2 = .ok none ∧
     s5.2 = .ok none ∧
     s5.1.current.batches.length = 2 ∧ s5.1.converter.len = 1 ∧
     (∃ w, s6.2 = .ok (some w) ∧ w.batches.map RecordBatch.numRows = [2, 2, 1]) ∧
     s6.1.current.batches.length = 0 ∧ s6.1.converter.len = 1) := by
  simp +decide [TemporalRotator.tryNewWithDuration, TemporalRotator.ingestPotentiallyBlocking,
    ProtobufBatchIngestor.tryNew, ProtobufBatchIngestor.ingestMessage, ProtobufBatchIngestor.finish,
    ProtobufBatchIngestor.len, RecordBatchConverter.tryNew, RecordBatchConverter.appendMessage,
    RecordBatchConverter.len, RecordBatchConverter.records, TemporalBuffer.newWithDuration,
    TemporalBuffer.new, durationSeconds, nsPerSec, appendAllFields, appendFieldLoop, appendField,
    appendNonListValue, fieldHead, parseVal, makeBuilderList, makeBuilder, makeBuilderOfType,
    schemaOneI32, msgDefaultI32, DynMessage.findField, MsgField.name, MsgField.supportsPresence,
    MsgField.hasField, MsgField.value, PValue.asI32, appendPrimCell, Builder.extendPrim,
    Builder.len, Builder.reset, Builder.resetList, List.find?]

/-- C3 (code bug).  A rotator configured with a 30-second period seals its
first window with a 30-second span, but rotation replaces the buffer via
`TemporalBuffer::new(now)`, so the second sealed window spans 60 seconds -
violating `end_at - begin_at = configured period`. -/
theorem c3_rotation_ignores_configured_period :
    (let r0 := TemporalRotator.tryNewWithDuration schemaOneI32 2 0 30
     let s1 := r0.ingestPotentiallyBlocking msgDefaultI32 (durationSeconds 31)
     let s2 := s1.1.ingestPotentiallyBlocking msgDefaultI32 (durationSeconds 100)
     (∃ w, s1.2 = .ok (some w) ∧ w.beginAt = 0 ∧
        w.endAt - w.beginAt = durationSeconds 30) ∧
     (∃ w, s2.2 = .ok (some w) ∧ w.beginAt = durationSeconds 31 ∧
        w.endAt - w.beginAt = durationSeconds 60 ∧
        w.endAt - w.beginAt ≠ durationSeconds 30)) := by
  simp +decide [TemporalRotator.tryNewWithDuration, TemporalRotator.ingestPotentiallyBlocking,
    ProtobufBatchIngestor.tryNew, ProtobufBatchIngestor.ingestMessage, ProtobufBatchIngestor.finish,
    ProtobufBatchIngestor.len, RecordBatchConverter.tryNew, RecordBatchConverter.appendMessage,
    RecordBatchConverter.len, RecordBatchConverter.records, TemporalBuffer.newWithDuration,
    TemporalBuffer.new, durationSeconds, nsPerSec, appendAllFields, appendFieldLoop, appendField,
    appendNonListValue, fieldHead, parseVal, makeBuilderList, makeBuilder, makeBuilderOfType,
    schemaOneI32, msgDefaultI32, DynMessage.findField, MsgField.name, MsgField.supportsPresence,
    MsgField.hasField, MsgField.value, PValue.asI32, appendPrimCell, Builder.extendPrim,
    Builder.len, Builder.reset, Builder.resetList, List.find?]

/-- C9.  The sealed-window file path is a pure function of `begin_at` alone:
it equals the begin timestamp formatted as `YYYY-MM-DD-HHMMSS` followed by
`_utc` and the `.parquet` extension; in particular
`begin_at = 2023-03-08T20:39:01Z` yields `2023-03-08-203901_utc.parquet`
(and `FileSink::filename_for` prefixes the directory). -/
theorem c9_sealed_window_path :
    (∀ (t e₁ e₂ : Int) (bs₁ bs₂ : List Nat),
        TemporalBytes.path ⟨t, e₁, bs₁⟩ = TemporalBytes.path ⟨t, e₂, bs₂⟩) ∧
    (∀ b : TemporalBytes, b.path = timestampString b.beginAt ++ ".parquet") ∧
    TemporalBytes.path ⟨1678307941 * nsPerSec, 1678308001 * nsPerSec, []⟩ =
      "2023-03-08-203901_utc.parquet" ∧
    fileSinkFilenameFor "some_directory" ⟨1678307941 * nsPerSec, 1678308001 * nsPerSec, []⟩ =
      "some_directory/2023-03-08-203901_utc.parquet" := by
  refine ⟨fun _ _ _ _ _ => rfl, fun _ => rfl, ?_, ?_⟩ <;> decide


mutual

theorem toArrowMut_allNullable (n : String) (l : Bool) (k : PbKind) (st : DictValuesContainer) :
    ((toArrowMut n l k st).1).allNullable = true := by
  have hdt : DataTypeM.allNullableT (kindToType k st).1 = true := kindToType_allNullableT k st
  rw [toArrowMut.eq_def]
  rcases hkt : kindToType k st with ⟨dt, st'⟩
  rw [hkt] at hdt
  cases l with
  | true => simp [AField.allNullable, DataTypeM.allNullableT, hdt]
  | false =>
    cases dt <;>
      simp [AField.allNullable, DataTypeM.allNullableT, hdt] at hdt ⊢ <;>
      try exact hdt
termination_by (sizeOf k, 1)

theorem kindToType_allNullableT (k : PbKind) (st : DictValuesContainer) :
    DataTypeM.allNullableT (kindToType k st).1 = true := by
  rw [kindToType.eq_def]
  cases k <;> simp [DataTypeM.allNullableT]
  rename_i fields
  split
  · rcases hfs : toArrowFields fields st with ⟨fs, st'⟩
    have h := toArrowFields_allNullable fields st
    rw [hfs] at h
    simpa [DataTypeM.allNullableT] using h
  · simp [DataTypeM.allNullableT]
termination_by (sizeOf k, 0)

theorem toArrowFields_allNullable (fields : List (String × Bool × PbKind))
    (st : DictValuesContainer) :
    allNullableList (toArrowFields fields st).1 = true := by
  rw [toArrowFields.eq_def]
  cases fields with
  | nil => simp [allNullableList]
  | cons fk rest =>
    rcases fk with ⟨n, l, k⟩
    rcases hf : toArrowMut n l k st with ⟨f, st'⟩
    rcases hfs : toArrowFields rest st' with ⟨fs, st''⟩
    have h1 := toArrowMut_allNullable n l k st
    rw [hf] at h1
    have h2 := toArrowFields_allNullable rest st'
    rw [hfs] at h2
    simp [allNullableList, hf, hfs, h1, h2]
termination_by (sizeOf fields, 0)

end


theorem mem_le_maxGetD {l : List Int} {x : Int} (hx : x ∈ l) : x ≤ l.max?.getD 0 := by
  rw [List.getD_max?_eq_unbot'_maximum]
  have h := List.le_maximum_of_mem' hx
  cases hmax : l.maximum with
  | bot => rw [hmax] at h; simp at h
  | coe m =>
    rw [hmax] at h
    simpa [WithBot.unbot'] using h

theorem maxGetD_nonneg {l : List Int} (hnn : ∀ k ∈ l, 0 ≤ k) : 0 ≤ l.max?.getD 0 := by
  cases l with
  | nil => simp
  | cons a t =>
    calc (0 : Int) ≤ a := hnn a (List.mem_cons_self a t)
    _ ≤ _ := mem_le_maxGetD (List.mem_cons_self a t)

theorem lexNonDecr_iff_chain (l : List String) :
    lexNonDecr l = true ↔ List.Chain' (· ≤ ·) l := by
  induction l with
  | nil => simp [lexNonDecr]
  | cons a t ih =>
    cases t with
    | nil => simp [lexNonDecr]
    | cons b t2 =>
      rw [lexNonDecr, List.chain'_cons]
      simp [ih]



theorem reset_len (b : Builder) : b.reset.len = 0 := by
  cases b <;> simp [Builder.reset, Builder.len]

theorem appendMessage_ok_len {c c' : RecordBatchConverter} {m : DynMessage}
    (h : c.appendMessage m = (c', none)) : c'.len = c.len + 1 := by
  rw [RecordBatchConverter.appendMessage] at h
  simp only [Prod.mk.injEq] at h
  obtain ⟨rfl, he⟩ := h
  exact appendAllFields_ok_len (by rw [← he])

theorem appendMessage_err_len {c c' : RecordBatchConverter} {m : DynMessage} {e : AppendErr}
    (h : c.appendMessage m = (c', some e)) : c'.len = c.len := by
  rw [RecordBatchConverter.appendMessage] at h
  simp only [Prod.mk.injEq] at h
  obtain ⟨rfl, he⟩ := h
  exact appendAllFields_err_len (by rw [← he])

/-- Row conservation of a successful `ingest_message`: the rows buffered
afterwards plus the rows of a flushed batch equal the prior rows plus one. -/
theorem ingestMessage_ok_rows {ing ing' : ProtobufBatchIngestor} {msg : DynMessage}
    {ob : Option RecordBatch} (h : ing.ingestMessage msg = (ing', .ok ob)) :
    ing'.len + (match ob with | some b => b.numRows | none => 0) = ing.len + 1 := by
  rw [ProtobufBatchIngestor.ingestMessage] at h
  split at h
  · have := congrArg Prod.snd h; simp at this
  · rename_i c hc
    have hlen := appendMessage_ok_len hc
    split at h
    · rename_i hge
      simp only [RecordBatchConverter.records, Prod.mk.injEq] at h
      obtain ⟨rfl, he⟩ := h
      cases he
      simp only [ProtobufBatchIngestor.len, RecordBatchConverter.len] at *
      simp [reset_len, hlen]
    · simp only [Prod.mk.injEq] at h
      obtain ⟨rfl, he⟩ := h
      cases he
      simpa [ProtobufBatchIngestor.len] using hlen

/-- C6.  A successful ingest returns a sealed window iff `now` is strictly
greater than the current window's `end_at`; whenever `now <= end_at`
(including exact equality) the bounds are unchanged, nothing is emitted, and
the message lands in the current window (total buffered rows grow by one). -/
theorem c6_rotation_iff_strictly_past_end (r : TemporalRotator) (msg : DynMessage) (now : Int)
    (r' : TemporalRotator) (res : Option TemporalBuffer)
    (h : r.ingestPotentiallyBlocking msg now = (r', .ok res)) :
    (res.isSome ↔ now > r.current.endAt) ∧
    (now ≤ r.current.endAt →
      r'.current.beginAt = r.current.beginAt ∧ r'.current.endAt = r.current.endAt ∧
      res = none ∧ r'.bufferedRows = r.bufferedRows + 1) := by
  rw [TemporalRotator.ingestPotentiallyBlocking] at h
  by_cases hgt : now > r.current.endAt <;> simp only [hgt, if_true, if_false] at h <;>
    split at h
  · have := congrArg Prod.snd h; simp at this
  · simp only [Prod.mk.injEq] at h
    obtain ⟨-, he⟩ := h
    cases he
    exact ⟨by simp [hgt], fun hle => absurd hgt (not_lt.mpr hle)⟩
  · simp only [Prod.mk.injEq] at h
    obtain ⟨-, he⟩ := h
    cases he
    exact ⟨by simp [hgt], fun hle => absurd hgt (not_lt.mpr hle)⟩
  · have := congrArg Prod.snd h; simp at this
  · rename_i conv batch hing
    simp only [Prod.mk.injEq] at h
    obtain ⟨rfl, he⟩ := h
    cases he
    have hrows := ingestMessage_ok_rows hing
    refine ⟨by simp [hgt], fun hle => ⟨rfl, rfl, rfl, ?_⟩⟩
    simp only [TemporalRotator.bufferedRows, List.map_append, List.sum_append] at *
    simp at hrows ⊢
    omega
  · rename_i conv hing
    simp only [Prod.mk.injEq] at h
    obtain ⟨rfl, he⟩ := h
    cases he
    have hrows := ingestMessage_ok_rows hing
    refine ⟨by simp [hgt], fun hle => ⟨rfl, rfl, rfl, ?_⟩⟩
    simp only [TemporalRotator.bufferedRows] at *
    simp at hrows
    omega


theorem ingestMessage_err_len {ing ing' : ProtobufBatchIngestor} {msg : DynMessage}
    {e : AppendErr} (h : ing.ingestMessage msg = (ing', .error e)) : ing'.len = ing.len := by
  rw [ProtobufBatchIngestor.ingestMessage] at h
  split at h
  · rename_i c hc
    simp only [Prod.mk.injEq] at h
    obtain ⟨rfl, -⟩ := h
    simpa [ProtobufBatchIngestor.len] using appendMessage_err_len hc
  · rename_i c hc
    split at h
    · have := congrArg Prod.snd h; simp at this
    · have := congrArg Prod.snd h; simp at this

/-- C5 (amended).  When the transcoder fails and the message's timestamp does
not cross the window boundary, the rotator's observable state (window bounds,
buffered batches, transcoder row count) is unchanged.  When the boundary is
crossed the rotator has already rotated before the failure - see the
counterexample. -/
theorem c5_nonboundary_failure_preserves_state (r : TemporalRotator) (msg : DynMessage)
    (now : Int) (r' : TemporalRotator) (e : AppendErr)
    (hle : now ≤ r.current.endAt)
    (h : r.ingestPotentiallyBlocking msg now = (r', .error e)) :
    r'.current.beginAt = r.current.beginAt ∧ r'.current.endAt = r.current.endAt ∧
    r'.current.batches = r.current.batches ∧ r'.converter.len = r.converter.len := by
  rw [TemporalRotator.ingestPotentiallyBlocking] at h
  simp only [not_lt.mpr hle, if_false] at h
  split at h
  · rename_i conv hing
    simp only [Prod.mk.injEq] at h
    obtain ⟨rfl, -⟩ := h
    exact ⟨rfl, rfl, rfl, ingestMessage_err_len hing⟩
  · have := congrArg Prod.snd h; simp at this
  · have := congrArg Prod.snd h; simp at this

def msgNoFields : DynMessage := []

/-- C5 counterexample.  A failing ingest whose timestamp crosses the window
boundary leaves the rotator with a fresh window [31s, 91s] instead of the
original [0s, 30s] (and the sealed window is dropped) - refuting the claim
that the rotator's state is unchanged whenever the transcoder fails. -/
theorem c5_counterexample :
    (let r0 := TemporalRotator.tryNewWithDuration schemaOneI32 2 0 30
     let s := r0.ingestPotentiallyBlocking msgNoFields (durationSeconds 31)
     s.2 = .error (.descriptorNotFound "a") ∧
     r0.current.beginAt = 0 ∧ r0.current.endAt = durationSeconds 30 ∧
     s.1.current.beginAt = durationSeconds 31 ∧
     s.1.current.endAt = durationSeconds 91) := by
  simp +decide [TemporalRotator.tryNewWithDuration, TemporalRotator.ingestPotentiallyBlocking,
    ProtobufBatchIngestor.tryNew, ProtobufBatchIngestor.ingestMessage, ProtobufBatchIngestor.finish,
    ProtobufBatchIngestor.len, RecordBatchConverter.tryNew, RecordBatchConverter.appendMessage,
    RecordBatchConverter.len, RecordBatchConverter.records, TemporalBuffer.newWithDuration,
    TemporalBuffer.new, durationSeconds, nsPerSec, appendAllFields, appendFieldLoop, appendField,
    appendNonListValue, fieldHead, parseVal, makeBuilderList, makeBuilder, makeBuilderOfType,
    schemaOneI32, msgNoFields, DynMessage.findField, MsgField.name, MsgField.supportsPresence,
    MsgField.hasField, MsgField.value, PValue.asI32, appendPrimCell, Builder.extendPrim,
    Builder.len, Builder.reset, Builder.resetList, List.find?]


theorem forall₂_len_succ {children cs' : List Builder} {n : Nat}
    (hf : List.Forall₂ (fun c c' => c'.len = c.len + 1) children cs')
    (hall : ∀ c ∈ children, c.len = n) : ∀ c' ∈ cs', c'.len = n + 1 := by
  induction hf with
  | nil => simp
  | cons hpair hrest ih =>
    intro c' hc'
    rcases List.mem_cons.mp hc' with rfl | hmem
    · rw [hpair, hall _ (List.mem_cons_self _ _)]
    · exact ih (fun c hc => hall c (List.mem_cons_of_mem _ hc)) c' hmem

/-- C1 (amended).  Appending one message: on success every column builder's
`len` increases by exactly one (so equal lens are preserved and the root row
count advances by one); on failure the root row count does not advance, but
the column builders for the fields processed before the failing field have
already advanced, so the builder is not left unchanged. -/
theorem c1_append_row_atomicity (schema : List AField) (children : List Builder)
    (validity : List Bool) (msg : DynMessage) (b' : Builder) (e : Option AppendErr)
    (hlen : schema.length = children.length)
    (h : appendAllFields schema (.structB children validity) (some msg) = (b', e)) :
    (e = none → ∃ cs', b' = .structB cs' (validity ++ [true]) ∧
       List.Forall₂ (fun c c' => Builder.len c' = Builder.len c + 1) children cs' ∧
       ((∀ c ∈ children, Builder.len c = validity.length) →
         ∀ c' ∈ cs', Builder.len c' = validity.length + 1)) ∧
    (e ≠ none → b'.len = validity.length) := by
  constructor
  · rintro rfl
    obtain ⟨cs', hb, hf⟩ := appendAllFields_ok_children hlen h
    exact ⟨cs', by simpa using hb, hf, fun hall => forall₂_len_succ hf hall⟩
  · intro hne
    cases e with
    | none => exact absurd rfl hne
    | some err => simpa [Builder.len] using appendAllFields_err_len h

def schemaTwoI32 : List AField :=
  [AField.mk "a" .int32 true 0 false, AField.mk "b" .int32 true 0 false]

/-- A message whose first field casts fine and whose second carries a
string where the planned column expects an i32 (schema/data drift). -/
def msgSecondFieldBad : DynMessage :=
  [("a", false, false, FieldKind.otherK, PValue.vI32 7),
   ("b", false, false, FieldKind.otherK, PValue.vStr "x")]

/-- C1 counterexample.  With a two-column Int32 schema and a message whose
second field fails the cast, `append_all_fields` fails with `TypeCastError`
yet the first column has advanced to len 1 while the second is still at 0 -
refuting the claim that a failed append advances no column builder. -/
theorem c1_counterexample :
    (let res := appendAllFields schemaTwoI32 (.structB [.prim [], .prim []] [])
       (some msgSecondFieldBad)
     res.2 = some .typeCastErr ∧ res.1.childLens = [1, 0] ∧ res.1.len = 0) := by
  simp +decide [appendAllFields, appendFieldLoop, appendField, appendNonListValue, fieldHead,
    parseVal, schemaTwoI32, msgSecondFieldBad, DynMessage.findField, MsgField.name,
    MsgField.supportsPresence, MsgField.hasField, MsgField.value, PValue.asI32, PValue.asStr,
    appendPrimCell, Builder.extendPrim, Builder.len, Builder.childLens, List.find?]


/-- C4 (amended).  A scalar enum column fails with `NoEnumValue` when the
integer has no declared name, and the column builder does not advance; but an
element of a repeated enum column with an unknown integer is appended as a
NULL element and the row append succeeds. -/
theorem c4_enum_unknown_value_amended :
    (∀ (fname : String) (m : DynMessage) (fd : MsgField) (evs : List (Int × String))
       (iv : Int) (child : Builder),
       m.findField fname = some fd →
       fd.kind = .enumK evs →
       (fd.supportsPresence && !fd.hasField) = false →
       fd.value.asI32 = some iv →
       FieldKind.getValue evs iv = none →
       appendNonListValue fname .dictionary (some m) child =
         (child, some (.noEnumValue iv))) ∧
    (∀ (fname iname : String) (m : DynMessage) (fd : MsgField) (evs : List (Int × String))
       (iv : Int) (cells : List (Option String)) (validity : List Bool)
       (inull : Bool) (idid : Int) (iord : Bool),
       m.findField fname = some fd →
       fd.kind = .enumK evs →
       (fd.supportsPresence && !fd.hasField) = false →
       fd.value = .vList [.vEnum iv] →
       FieldKind.getValue evs iv = none →
       appendListValue fname (.mk iname .dictionary inull idid iord) (some m)
           (.listB (.dict cells) validity) =
         (.listB (.dict (cells ++ [none])) (validity ++ [true]), none)) := by
  constructor
  · intro fname m fd evs iv child hfind hkind hpres hiv hget
    have hfh : fieldHead fname (some m) = .ok (some fd, some fd.value) := by
      simp [fieldHead, hfind, hpres]
    rw [appendNonListValue.eq_def, hfh]
    simp [appendDictBranch, hiv, hkind, hget]
  · intro fname iname m fd evs iv cells validity inull idid iord hfind hkind hpres hval hget
    have hfh : fieldHead fname (some m) = .ok (some fd, some fd.value) := by
      simp [fieldHead, hfind, hpres]
    rw [appendListValue.eq_def, hfh]
    have hrow : dictListCells evs (some [PValue.vEnum iv]) = .ok (some [none]) := by
      simp [dictListCells, List.mapM, List.mapM.loop, PValue.asI32, hget]
      rfl
    simp [hval, PValue.asList, appendListDictBranch, hkind, hrow, Builder.listDictExtend]

def schemaListEnum : List AField :=
  [AField.mk "e" (.listT (.mk "item" .dictionary true 0 false)) true 0 false]

/-- A message whose repeated-enum field holds the unknown number 5 against
an enum declaring only `0 = "A"`. -/
def msgUnknownEnumInList : DynMessage :=
  [("e", false, true, FieldKind.enumK [(0, "A")], PValue.vList [PValue.vEnum 5])]

/-- C4 counterexample.  Appending a message whose repeated-enum field holds
the undeclared number 5 succeeds (no error) and appends a row with a null
element - refuting the claim that it fails with `UnknownEnumValue` and
appends no row. -/
theorem c4_counterexample :
    (let res := appendAllFields schemaListEnum (.structB [.listB (.dict []) []] [])
       (some msgUnknownEnumInList)
     res.2 = none ∧ res.1.len = 1 ∧
     res.1.childLens = [1]) := by
  simp +decide [appendAllFields, appendFieldLoop, appendField, appendListValue, fieldHead,
    schemaListEnum, msgUnknownEnumInList, DynMessage.findField, MsgField.name,
    MsgField.supportsPresence, MsgField.hasField, MsgField.value, MsgField.kind, PValue.asI32,
    PValue.asList, appendListDictBranch, dictListCells, FieldKind.getValue,
    Builder.listDictExtend, Builder.len, Builder.childLens, List.find?]


/-- The primitive scalar column types (the 11 `extend_builder` arms of
`append_non_list_value`). -/
def DataTypeM.isPrimScalar : DataTypeM → Bool
  | .boolean | .int32 | .int64 | .uint32 | .uint64 | .float32 | .float64
  | .utf8 | .largeUtf8 | .binary | .largeBinary => true
  | _ => false

theorem appendPrimCell_ok_inv {cells : List (Option Scalar)} {b' : Builder}
    {r : Except AppendErr (Option Scalar)}
    (h : appendPrimCell (.prim cells) r = (b', none)) :
    ∃ cell, r = .ok cell ∧ b' = .prim (cells ++ [cell]) := by
  cases r with
  | error e => simp [appendPrimCell, Prod.ext_iff] at h
  | ok cell =>
    refine ⟨cell, rfl, ?_⟩
    simp only [appendPrimCell, Builder.extendPrim, Prod.mk.injEq] at h
    exact h.1.symm

theorem parseVal_ok_none_iff {R : Type} {val : Option PValue} {getter : PValue → Option R}
    {cell : Option R} (h : parseVal val getter = .ok cell) : (cell = none ↔ val = none) := by
  cases val with
  | none =>
    simp only [parseVal] at h
    cases h
    simp
  | some v =>
    simp only [parseVal] at h
    split at h
    · cases h
      simp
    · cases h

theorem c7_prim_scalar_cell (dt : DataTypeM) (hprim : dt.isPrimScalar = true)
    (fname : String) (m : DynMessage) (fd : MsgField) (cells : List (Option Scalar))
    (b' : Builder) (hfind : m.findField fname = some fd)
    (h : appendNonListValue fname dt (some m) (.prim cells) = (b', none)) :
    ∃ cell, b' = .prim (cells ++ [cell]) ∧
      (cell = none ↔ (fd.supportsPresence = true ∧ fd.hasField = false)) := by
  have hfh : fieldHead fname (some m) = .ok (some fd,
      if fd.supportsPresence && !fd.hasField then none else some fd.value) := by
    simp [fieldHead, hfind]
  rw [appendNonListValue.eq_def, hfh] at h
  have hval_iff : ((if fd.supportsPresence && !fd.hasField then none else some fd.value) :
      Option PValue) = none ↔ (fd.supportsPresence = true ∧ fd.hasField = false) := by
    cases hs : fd.supportsPresence <;> cases hh : fd.hasField <;> simp [hs, hh]
  cases dt
  case boolean =>
    obtain ⟨cell, hr, rfl⟩ := appendPrimCell_ok_inv h
    refine ⟨cell, rfl, ?_⟩
    by_cases hg : (fd.supportsPresence && !fd.hasField) = true
    · rw [if_pos hg] at hr
      have h2 : (Except.ok (none : Option Scalar) : Except AppendErr (Option Scalar)) =
          .ok cell := hr
      cases h2
      simpa using hval_iff.mp (by simp [hg])
    · rw [if_neg hg] at hr
      have hg2 : ¬(fd.supportsPresence = true ∧ fd.hasField = false) := by
        intro hc
        exact hg (by simp [hc.1, hc.2])
      cases hfv : fd.value <;> rw [hfv] at hr <;>
        simp [parseVal, PValue.asBool] at hr <;>
        simp [← hr, hg2]
  all_goals
    first
    | exact (Bool.false_ne_true hprim).elim
    | (obtain ⟨cell, hr, rfl⟩ := appendPrimCell_ok_inv h
       exact ⟨cell, rfl, (parseVal_ok_none_iff hr).trans hval_iff⟩)


theorem c7_dict_cell (fname : String) (m : DynMessage) (fd : MsgField)
    (cells : List (Option String)) (b' : Builder)
    (hfind : m.findField fname = some fd)
    (h : appendNonListValue fname .dictionary (some m) (.dict cells) = (b', none)) :
    ∃ cell, b' = .dict (cells ++ [cell]) ∧
      (cell = none ↔ ((fd.supportsPresence = true ∧ fd.hasField = false) ∨
         fd.value.asI32 = none)) := by
  have hfh : fieldHead fname (some m) = .ok (some fd,
      if fd.supportsPresence && !fd.hasField then none else some fd.value) := by
    simp [fieldHead, hfind]
  rw [appendNonListValue.eq_def, hfh] at h
  have h2 : appendDictBranch (some fd)
      (if fd.supportsPresence && !fd.hasField then none else some fd.value)
      (.dict cells) = (b', none) := h
  clear h
  by_cases hg : (fd.supportsPresence && !fd.hasField) = true
  · rw [if_pos hg] at h2
    rw [appendDictBranch.eq_def] at h2
    simp only [Option.bind, Builder.dictAppendNull, Prod.mk.injEq] at h2
    obtain ⟨hb, -⟩ := h2
    refine ⟨none, hb.symm, ?_⟩
    have : fd.supportsPresence = true ∧ fd.hasField = false := by
      cases hs : fd.supportsPresence <;> cases hh : fd.hasField <;>
        simp [hs, hh] at hg ⊢
    simp [this]
  · rw [if_neg hg] at h2
    have hg2 : ¬(fd.supportsPresence = true ∧ fd.hasField = false) := by
      intro hc
      exact hg (by simp [hc.1, hc.2])
    rw [appendDictBranch.eq_def] at h2
    simp only [Option.some_bind] at h2
    cases hiv : fd.value.asI32 with
    | none =>
      rw [hiv] at h2
      simp only [Option.bind, Builder.dictAppendNull, Prod.mk.injEq] at h2
      obtain ⟨hb, -⟩ := h2
      exact ⟨none, hb.symm, by simp [hg2, hiv]⟩
    | some iv =>
      rw [hiv] at h2
      simp only [Option.bind] at h2
      split at h2
      · have := congrArg Prod.snd h2; simp at this
      · split at h2
        · have := congrArg Prod.snd h2; simp at this
        · simp only [Builder.dictAppend, Prod.mk.injEq] at h2
          obtain ⟨hb, -⟩ := h2
          rename_i ev _
          exact ⟨some ev.2, hb.symm, by simp [hg2, hiv]⟩


def schemaDictCol : List AField := [AField.mk "s" .dictionary true 1 false]

/-- A message whose field `s` is set (and has no presence tracking) but
holds a string where the planned column expects an enum integer. -/
def msgStrOnDict : DynMessage :=
  [("s", false, true, FieldKind.enumK [(0, "A")], PValue.vStr "hi")]

/-- C7 counterexample.  A set, non-presence-tracked string value on a
dictionary column is appended as NULL and the append succeeds - refuting the
claim that a cell is null only when the field supports presence and is
unset. -/
theorem c7_counterexample :
    (let res := appendAllFields schemaDictCol (.structB [.dict []] []) (some msgStrOnDict)
     res.2 = none ∧ res.1 = .structB [.dict [none]] [true] ∧
     (msgStrOnDict.findField "s").map MsgField.supportsPresence = some false ∧
     (msgStrOnDict.findField "s").map MsgField.hasField = some true) := by
  simp +decide [appendAllFields, appendFieldLoop, appendField, appendNonListValue, fieldHead,
    appendDictBranch, schemaDictCol, msgStrOnDict, DynMessage.findField, MsgField.name,
    MsgField.supportsPresence, MsgField.hasField, MsgField.value, MsgField.kind, PValue.asI32,
    Builder.dictAppendNull, Builder.len, List.find?]



/-- C8.  `add_dictionary` returns `max(keys) + 1`: an id that is at least 1,
distinct from every id already in the registry, preserving positivity of all
ids; and an enum column's `ordered` flag is true iff its declared value names
are lexicographically non-decreasing in declaration order. -/
theorem c8_dict_ids_and_ordered_flag :
    (∀ (c : DictValuesContainer) (vals : List String),
       (∀ k ∈ c.keys, 0 ≤ k) →
       1 ≤ (c.addDictionary vals).1 ∧ (c.addDictionary vals).1 ∉ c.keys ∧
       ∀ k ∈ (c.addDictionary vals).2.keys, 0 ≤ k) ∧
    (∀ (n : String) (vs : List (Int × String)) (st : DictValuesContainer),
       ((toArrowMut n false (.pEnum vs) st).1).ordered = true ↔
         List.Chain' (· ≤ ·) (vs.map Prod.snd)) := by
  constructor
  · intro c vals hnn
    have hnn' : ∀ k ∈ c.map Prod.fst, 0 ≤ k := by
      simpa [DictValuesContainer.keys] using hnn
    have h0 := maxGetD_nonneg hnn'
    refine ⟨?_, ?_, ?_⟩
    · simp only [DictValuesContainer.addDictionary]
      omega
    · intro hmem
      simp only [DictValuesContainer.addDictionary, DictValuesContainer.keys] at hmem
      have hle := mem_le_maxGetD hmem
      omega
    · intro k hk
      simp only [DictValuesContainer.addDictionary, DictValuesContainer.keys, List.map_cons,
        List.mem_cons] at hk
      rcases hk with rfl | hmem
      · omega
      · simp only [List.mem_map] at hmem
        obtain ⟨kv, hkv, rfl⟩ := hmem
        exact hnn' _ (List.mem_map_of_mem _ (List.mem_of_mem_filter hkv))
  · intro n vs st
    rw [toArrowMut.eq_def]
    simp [kindToType, PbKind.enumValueNames, AField.ordered, lexNonDecr_iff_chain]

/-- C10.  Every column produced by the schema planner is nullable: every
field produced by `to_arrow_mut` - including list columns, their inner item
fields, nested struct columns and dictionary columns - carries
`nullable = true`, regardless of the proto field's cardinality or presence
semantics. -/
theorem c10_schema_planner_all_nullable :
    (∀ (fields : List (String × Bool × PbKind)) (st : DictValuesContainer),
       allNullableList (toArrowFields fields st).1 = true) ∧
    (∀ (n : String) (isList : Bool) (k : PbKind) (st : DictValuesContainer),
       ((toArrowMut n isList k st).1).allNullable = true) :=
  ⟨toArrowFields_allNullable, toArrowMut_allNullable⟩

/-- C7 (amended).  For primitive scalar columns the appended cell is null iff
the field supports presence and is unset (a present zero value is appended,
never inferred as absent).  For a dictionary column the cell is null iff the
field is presence-unset or the reflected value is not an integer - a
shape-mismatched present value is appended as null, not as a value. -/
theorem c7_presence_null_semantics :
    (∀ (dt : DataTypeM), dt.isPrimScalar = true →
      ∀ (fname : String) (m : DynMessage) (fd : MsgField) (cells : List (Option Scalar))
        (b' : Builder),
        m.findField fname = some fd →
        appendNonListValue fname dt (some m) (.prim cells) = (b', none) →
        ∃ cell, b' = .prim (cells ++ [cell]) ∧
          (cell = none ↔ (fd.supportsPresence = true ∧ fd.hasField = false))) ∧
    (∀ (fname : String) (m : DynMessage) (fd : MsgField) (cells : List (Option String))
        (b' : Builder),
        m.findField fname = some fd →
        appendNonListValue fname .dictionary (some m) (.dict cells) = (b', none) →
        ∃ cell, b' = .dict (cells ++ [cell]) ∧
          (cell = none ↔ ((fd.supportsPresence = true ∧ fd.hasField = false) ∨
             fd.value.asI32 = none))) :=
  ⟨c7_prim_scalar_cell, c7_dict_cell⟩


def registryOne : DictValuesContainer := [(1, ["A"])]

/-- C8 witness: the theorem applied to a concrete one-entry registry. -/
theorem c8_witness :
    (∀ k ∈ DictValuesContainer.keys registryOne, 0 ≤ k) ∧
    (1 ≤ (registryOne.addDictionary ["B"]).1 ∧
     (registryOne.addDictionary ["B"]).1 ∉ DictValuesContainer.keys registryOne ∧
     ∀ k ∈ (registryOne.addDictionary ["B"]).2.keys, 0 ≤ k) :=
  ⟨by decide, c8_dict_ids_and_ordered_flag.1 registryOne ["B"] (by decide)⟩

/-- C6 witness: the theorem applied at a message whose timestamp exactly
equals `end_at`, hypotheses discharged by evaluation. -/
theorem c6_witness :
    ∃ r' : TemporalRotator,
      (TemporalRotator.tryNewWithDuration schemaOneI32 2 0 30).ingestPotentiallyBlocking
          msgDefaultI32 (durationSeconds 30) = (r', .ok none) ∧
      ((none : Option TemporalBuffer).isSome ↔
        durationSeconds 30 >
          (TemporalRotator.tryNewWithDuration schemaOneI32 2 0 30).current.endAt) := by
  have h2 : ((TemporalRotator.tryNewWithDuration schemaOneI32 2 0 30).ingestPotentiallyBlocking
      msgDefaultI32 (durationSeconds 30)).2 = .ok none := by
    simp +decide [TemporalRotator.tryNewWithDuration, TemporalRotator.ingestPotentiallyBlocking,
      ProtobufBatchIngestor.tryNew, ProtobufBatchIngestor.ingestMessage,
      ProtobufBatchIngestor.finish, ProtobufBatchIngestor.len, RecordBatchConverter.tryNew,
      RecordBatchConverter.appendMessage, RecordBatchConverter.len, RecordBatchConverter.records,
      TemporalBuffer.newWithDuration, TemporalBuffer.new, durationSeconds, nsPerSec,
      appendAllFields, appendFieldLoop, appendField, appendNonListValue, fieldHead, parseVal,
      makeBuilderList, makeBuilder, makeBuilderOfType, schemaOneI32, msgDefaultI32,
      DynMessage.findField, MsgField.name, MsgField.supportsPresence, MsgField.hasField,
      MsgField.value, PValue.asI32, appendPrimCell, Builder.extendPrim, Builder.len,
      Builder.reset, Builder.resetList, List.find?]
  have h : (TemporalRotator.tryNewWithDuration schemaOneI32 2 0 30).ingestPotentiallyBlocking
      msgDefaultI32 (durationSeconds 30) =
      (((TemporalRotator.tryNewWithDuration schemaOneI32 2 0 30).ingestPotentiallyBlocking
        msgDefaultI32 (durationSeconds 30)).1, .ok none) := by
    rw [← h2]
  exact ⟨_, h, (c6_rotation_iff_strictly_past_end _ _ _ _ _ h).1⟩

/-- C5 witness: the amended theorem applied at a concrete non-boundary
failing ingest, hypotheses discharged by evaluation. -/
theorem c5_witness :
    durationSeconds 1 ≤ (TemporalRotator.tryNewWithDuration schemaOneI32 2 0 30).current.endAt ∧
    ∃ r' : TemporalRotator,
      (TemporalRotator.tryNewWithDuration schemaOneI32 2 0 30).ingestPotentiallyBlocking
          msgNoFields (durationSeconds 1) = (r', .error (.descriptorNotFound "a")) ∧
      r'.current.beginAt =
          (TemporalRotator.tryNewWithDuration schemaOneI32 2 0 30).current.beginAt ∧
      r'.current.endAt = (TemporalRotator.tryNewWithDuration schemaOneI32 2 0 30).current.endAt ∧
      r'.current.batches = (TemporalRotator.tryNewWithDuration schemaOneI32 2 0 30).current.batches ∧
      r'.converter.len = (TemporalRotator.tryNewWithDuration schemaOneI32 2 0 30).converter.len := by
  have hle : durationSeconds 1 ≤
      (TemporalRotator.tryNewWithDuration schemaOneI32 2 0 30).current.endAt := by
    simp +decide [TemporalRotator.tryNewWithDuration, TemporalBuffer.newWithDuration,
      ProtobufBatchIngestor.tryNew, RecordBatchConverter.tryNew, durationSeconds, nsPerSec]
  have h2 : ((TemporalRotator.tryNewWithDuration schemaOneI32 2 0 30).ingestPotentiallyBlocking
      msgNoFields (durationSeconds 1)).2 = .error (.descriptorNotFound "a") := by
    simp +decide [TemporalRotator.tryNewWithDuration, TemporalRotator.ingestPotentiallyBlocking,
      ProtobufBatchIngestor.tryNew, ProtobufBatchIngestor.ingestMessage,
      ProtobufBatchIngestor.finish, ProtobufBatchIngestor.len, RecordBatchConverter.tryNew,
      RecordBatchConverter.appendMessage, RecordBatchConverter.len, RecordBatchConverter.records,
      TemporalBuffer.newWithDuration, TemporalBuffer.new, durationSeconds, nsPerSec,
      appendAllFields, appendFieldLoop, appendField, appendNonListValue, fieldHead, parseVal,
      makeBuilderList, makeBuilder, makeBuilderOfType, schemaOneI32, msgNoFields,
      DynMessage.findField, MsgField.name, MsgField.supportsPresence, MsgField.hasField,
      MsgField.value, PValue.asI32, appendPrimCell, Builder.extendPrim, Builder.len,
      Builder.reset, Builder.resetList, List.find?]
  have h : (TemporalRotator.tryNewWithDuration schemaOneI32 2 0 30).ingestPotentiallyBlocking
      msgNoFields (durationSeconds 1) =
      (((TemporalRotator.tryNewWithDuration schemaOneI32 2 0 30).ingestPotentiallyBlocking
        msgNoFields (durationSeconds 1)).1, .error (.descriptorNotFound "a")) := by
    rw [← h2]
  exact ⟨hle, _, h, c5_nonboundary_failure_preserves_state _ _ _ _ _ hle h⟩


/-- C1 witness: the amended theorem applied at a concrete successful append,
hypotheses discharged by evaluation. -/
theorem c1_witness :
    schemaOneI32.length = [Builder.prim []].length ∧
    (((none : Option AppendErr) = none → ∃ cs',
        (Builder.structB [.prim [some (.sI32 0)]] [true] : Builder) =
          .structB cs' ([] ++ [true]) ∧
        List.Forall₂ (fun c c' => Builder.len c' = Builder.len c + 1) [Builder.prim []] cs' ∧
        ((∀ c ∈ [Builder.prim []], Builder.len c = List.length ([] : List Bool)) →
          ∀ c' ∈ cs', Builder.len c' = List.length ([] : List Bool) + 1)) ∧
     ((none : Option AppendErr) ≠ none →
        (Builder.structB [.prim [some (.sI32 0)]] [true] : Builder).len =
          List.length ([] : List Bool))) := by
  have h : appendAllFields schemaOneI32 (.structB [.prim []] []) (some msgDefaultI32) =
      (.structB [.prim [some (.sI32 0)]] [true], none) := by
    simp +decide [appendAllFields, appendFieldLoop, appendField, appendNonListValue, fieldHead,
      parseVal, schemaOneI32, msgDefaultI32, DynMessage.findField, MsgField.name,
      MsgField.supportsPresence, MsgField.hasField, MsgField.value, PValue.asI32, appendPrimCell,
      Builder.extendPrim, List.find?]
  exact ⟨rfl, c1_append_row_atomicity _ _ _ _ _ _ rfl h⟩

/-- A message whose scalar enum field holds the unknown number 5 against
an enum declaring only `0 = "A"`. -/
def msgUnknownEnumScalar : DynMessage :=
  [("s", false, true, FieldKind.enumK [(0, "A")], PValue.vEnum 5)]

/-- C4 witness: the amended theorem applied at concrete unknown-enum inputs,
hypotheses discharged by `rfl`. -/
theorem c4_witness :
    appendNonListValue "s" .dictionary (some msgUnknownEnumScalar) (.dict []) =
      (.dict [], some (.noEnumValue 5)) ∧
    appendListValue "e" (.mk "item" .dictionary true 0 false) (some msgUnknownEnumInList)
        (.listB (.dict []) []) =
      (.listB (.dict ([] ++ [none])) ([] ++ [true]), none) :=
  ⟨c4_enum_unknown_value_amended.1 "s" msgUnknownEnumScalar
      ("s", false, true, FieldKind.enumK [(0, "A")], PValue.vEnum 5) [(0, "A")] 5 (.dict [])
      rfl rfl rfl rfl rfl,
   c4_enum_unknown_value_amended.2 "e" "item" msgUnknownEnumInList
      ("e", false, true, FieldKind.enumK [(0, "A")], PValue.vList [PValue.vEnum 5]) [(0, "A")] 5
      [] [] true 0 false rfl rfl rfl rfl rfl⟩

/-- C7 witness: the amended theorem applied at a concrete zero-valued int32
field and at the shape-mismatched dictionary field. -/
theorem c7_witness :
    (∃ cell, (Builder.prim [some (.sI32 0)] : Builder) = .prim ([] ++ [cell]) ∧
      (cell = none ↔ (MsgField.supportsPresence ("a", false, false, FieldKind.otherK,
          PValue.vI32 0) = true ∧
        MsgField.hasField ("a", false, false, FieldKind.otherK, PValue.vI32 0) = false))) ∧
    (∃ cell, (Builder.dict [none] : Builder) = .dict ([] ++ [cell]) ∧
      (cell = none ↔ ((MsgField.supportsPresence ("s", false, true,
          FieldKind.enumK [(0, "A")], PValue.vStr "hi") = true ∧
        MsgField.hasField ("s", false, true, FieldKind.enumK [(0, "A")],
          PValue.vStr "hi") = false) ∨
        (MsgField.value ("s", false, true, FieldKind.enumK [(0, "A")],
          PValue.vStr "hi")).asI32 = none))) := by
  have h1 : appendNonListValue "a" .int32 (some msgDefaultI32) (.prim []) =
      (.prim [some (.sI32 0)], none) := by
    simp +decide [appendNonListValue, fieldHead, parseVal, msgDefaultI32, DynMessage.findField,
      MsgField.name, MsgField.supportsPresence, MsgField.hasField, MsgField.value, PValue.asI32,
      appendPrimCell, Builder.extendPrim, List.find?]
  have h2 : appendNonListValue "s" .dictionary (some msgStrOnDict) (.dict []) =
      (.dict [none], none) := by
    simp +decide [appendNonListValue, fieldHead, appendDictBranch, msgStrOnDict,
      DynMessage.findField, MsgField.name, MsgField.supportsPresence, MsgField.hasField,
      MsgField.value, MsgField.kind, PValue.asI32, Builder.dictAppendNull, List.find?]
  exact ⟨c7_presence_null_semantics.1 .int32 rfl "a" msgDefaultI32 _ [] _ rfl h1,
         c7_presence_null_semantics.2 "s" msgStrOnDict _ [] _ rfl h2⟩


end Katniss
